import Mathlib

/-!
Verification of the go-poe event-stream protocol engine.

The definitions below are a shallow embedding of the Go sources:
the SSE codec (sse/reader.go, sse/writer.go), the per-event dispatch of
performQueryRequest and the retry loop of streamRequestBase
(client/request.go, client/client.go), the transcript accumulation of
GetFinalResponse (client/client.go), and the pass-1 tool-call delta
aggregation of streamRequestWithTools (client/tools.go).
Strings are modelled by Lean String (lists of characters); the line
splitting of bufio.Scanner with ScanLines is modelled explicitly.
-/

namespace GoPoe

namespace sse

/-- Event mirrors sse.Event: an SSE record with type, data and id. -/
structure Event where
  event : String
  data : String
  id : String
deriving DecidableEq, Repr

/-- dropCR mirrors bufio.ScanLines dropCR: removes one trailing carriage
return from a line. -/
def dropCR (l : List Char) : List Char :=
  if l.getLast? = some '\r' then l.dropLast else l

/-- splitLinesAux models bufio.Scanner with bufio.ScanLines: the input is
split at every newline, each line loses one trailing carriage return, a
final unterminated line is returned, and a trailing newline does not
produce an extra empty line. -/
def splitLinesAux : List Char → List Char → List (List Char)
  | [], acc => if acc.isEmpty then [] else [dropCR acc.reverse]
  | c :: cs, acc =>
    if c = '\n' then dropCR acc.reverse :: splitLinesAux cs []
    else splitLinesAux cs (c :: acc)

/-- splitLines: the sequence of lines bufio.Scanner yields for an input. -/
def splitLines (cs : List Char) : List (List Char) := splitLinesAux cs []

/-- cutColon mirrors strings.Cut(line, ":"): the part before the first
colon and the part after it (empty when there is no colon). -/
def cutColon : List Char → List Char × List Char
  | [] => ([], [])
  | c :: cs =>
    if c = ':' then ([], cs)
    else
      let r := cutColon cs
      (c :: r.1, r.2)

/-- trimOneSpace mirrors strings.TrimPrefix(value, " "): exactly one
leading space is removed when present. -/
def trimOneSpace : List Char → List Char
  | ' ' :: rest => rest
  | l => l

/-- RState is the accumulating state of one ReadEvent call: the event
type and id seen so far, the pending data lines, and the hasData flag. -/
structure RState where
  ev : List Char
  id : List Char
  dataLines : List (List Char)
  hasData : Bool
deriving DecidableEq, Repr

/-- The state at the start of a ReadEvent call: everything empty. -/
def initState : RState := ⟨[], [], [], false⟩

/-- pending mirrors the yield condition of ReadEvent:
hasData or a non-empty event type or a non-empty id. -/
def pending (st : RState) : Bool :=
  st.hasData || !st.ev.isEmpty || !st.id.isEmpty

/-- joinNL mirrors strings.Join(dataLines, newline). -/
def joinNL : List (List Char) → List Char
  | [] => []
  | [l] => l
  | l :: ls => l ++ '\n' :: joinNL ls

/-- flushEvent builds the Event yielded by ReadEvent from the state. -/
def flushEvent (st : RState) : Event :=
  { event := String.mk st.ev, data := String.mk (joinNL st.dataLines), id := String.mk st.id }

/-- procLine mirrors one iteration of the scanner loop of ReadEvent:
a blank line yields the pending record, a comment line is skipped,
any other line is cut at the first colon and dispatched on the field
name, unknown fields being ignored. -/
def procLine (st : RState) (line : List Char) : RState × Option Event :=
  if line.isEmpty then
    if pending st then (initState, some (flushEvent st)) else (st, none)
  else if line.head? = some ':' then (st, none)
  else
    let fv := cutColon line
    let value := trimOneSpace fv.2
    if fv.1 = "event".data then ({ st with ev := value }, none)
    else if fv.1 = "data".data then
      ({ st with dataLines := st.dataLines ++ [value], hasData := true }, none)
    else if fv.1 = "id".data then ({ st with id := value }, none)
    else (st, none)

/-- readEvents runs ReadEvent to exhaustion over a list of lines: every
yielded record is collected in order, and at end of input a pending
record is yielded before io.EOF, mirroring the tail of ReadEvent. -/
def readEvents : List (List Char) → RState → List Event
  | [], st => if pending st then [flushEvent st] else []
  | line :: rest, st =>
    match procLine st line with
    | (st', none) => readEvents rest st'
    | (st', some e) => e :: readEvents rest st'

/-- decode: the full sequence of events ReadEvent yields for an input
string, combining the scanner line splitting with the record loop. -/
def decode (s : String) : List Event := readEvents (splitLines s.data) initState

/-- writeEvent mirrors Writer.WriteEvent on an error-free sink: the id
line when the id is non-empty, the event line when the type is
non-empty, then the data line which is always present, and the blank
record separator. -/
def writeEvent (e : Event) : String :=
  (if e.id ≠ "" then "id: " ++ e.id ++ "\n" else "") ++
  ((if e.event ≠ "" then "event: " ++ e.event ++ "\n" else "") ++
   ("data: " ++ e.data ++ "\n\n"))

end sse

namespace json

/-- JVal models the Go value tree produced by encoding/json.Unmarshal
into a map: null, booleans, numbers, strings, arrays and objects.
Numeric payloads are stored by their integer part (the fraction and
exponent are consumed syntactically); the dispatch only ever reads
numbers through the index field, and no claim depends on a numeric
value beyond that. -/
inductive JVal where
  | jnull
  | jbool (b : Bool)
  | jnum (n : Int)
  | jstr (s : String)
  | jarr (elems : List JVal)
  | jobj (fields : List (String × JVal))
deriving Repr, Inhabited

/-- skipWs skips the whitespace characters accepted by encoding/json. -/
def skipWs (cs : List Char) : List Char :=
  cs.dropWhile (fun c => c = ' ' ∨ c = '\t' ∨ c = '\n' ∨ c = '\r')

/-- hexVal: the value of one hexadecimal digit. -/
def hexVal (c : Char) : Option Nat :=
  if c.isDigit then some (c.toNat - 48)
  else if 'a' ≤ c ∧ c ≤ 'f' then some (c.toNat - 87)
  else if 'A' ≤ c ∧ c ≤ 'F' then some (c.toNat - 55)
  else none

/-- parseJString reads a JSON string body after the opening quote,
handling the escape sequences of the JSON grammar, and returns the
content together with the rest of the input after the closing quote. -/
def parseJString : Nat → List Char → Option (List Char × List Char)
  | 0, _ => none
  | _ + 1, [] => none
  | fuel + 1, c :: rest =>
    if c = '\"' then some ([], rest)
    else if c = '\\' then
      match rest with
      | [] => none
      | e :: rest₁ =>
        let esc : Option (Char × List Char) :=
          if e = '\"' then some ('\"', rest₁)
          else if e = '\\' then some ('\\', rest₁)
          else if e = '/' then some ('/', rest₁)
          else if e = 'b' then some ('\x08', rest₁)
          else if e = 'f' then some ('\x0c', rest₁)
          else if e = 'n' then some ('\n', rest₁)
          else if e = 'r' then some ('\r', rest₁)
          else if e = 't' then some ('\t', rest₁)
          else if e = 'u' then
            match rest₁ with
            | h1 :: h2 :: h3 :: h4 :: rest₂ =>
              match hexVal h1, hexVal h2, hexVal h3, hexVal h4 with
              | some a, some b, some c2, some d =>
                some (Char.ofNat (((a * 16 + b) * 16 + c2) * 16 + d), rest₂)
              | _, _, _, _ => none
            | _ => none
          else none
        match esc with
        | none => none
        | some (ch, r) =>
          match parseJString fuel r with
          | none => none
          | some (s, r2) => some (ch :: s, r2)
    else if c.toNat < 32 then none
    else
      match parseJString fuel rest with
      | none => none
      | some (s, r2) => some (c :: s, r2)

/-- digitsVal: the natural number denoted by a digit run. -/
def digitsVal (l : List Char) : Nat :=
  l.foldl (fun a c => a * 10 + (c.toNat - 48)) 0

/-- parseNum reads a JSON number: optional minus, digits, optional
fraction and exponent; the stored value is the signed integer part. -/
def parseNum (cs : List Char) : Option (Int × List Char) :=
  let p := match cs with
    | '-' :: r => (true, r)
    | _ => (false, cs)
  let ds := p.2.takeWhile Char.isDigit
  if ds.isEmpty then none
  else
    let rest₁ := p.2.dropWhile Char.isDigit
    let rest₂ : Option (List Char) := match rest₁ with
      | '.' :: r =>
        if (r.takeWhile Char.isDigit).isEmpty then none
        else some (r.dropWhile Char.isDigit)
      | _ => some rest₁
    match rest₂ with
    | none => none
    | some r2 =>
      let rest₃ : Option (List Char) := match r2 with
        | 'e' :: r | 'E' :: r =>
          let r' := match r with
            | '+' :: rr => rr
            | '-' :: rr => rr
            | _ => r
          if (r'.takeWhile Char.isDigit).isEmpty then none
          else some (r'.dropWhile Char.isDigit)
        | _ => some r2
      match rest₃ with
      | none => none
      | some r3 =>
        some (if p.1 then -(digitsVal ds : Int) else (digitsVal ds : Int), r3)

mutual

/-- parseVal reads one JSON value, mirroring the grammar accepted by
encoding/json: objects, arrays, strings, true, false, null, numbers. -/
def parseVal : Nat → List Char → Option (JVal × List Char)
  | 0, _ => none
  | fuel + 1, cs =>
    match skipWs cs with
    | [] => none
    | c :: rest =>
      if c = '\x7b' then
        match skipWs rest with
        | '\x7d' :: rest₁ => some (.jobj [], rest₁)
        | _ =>
          match parseMembers fuel rest with
          | some (fs, rest₁) => some (.jobj fs, rest₁)
          | none => none
      else if c = '[' then
        match skipWs rest with
        | ']' :: rest₁ => some (.jarr [], rest₁)
        | _ =>
          match parseElems fuel rest with
          | some (xs, rest₁) => some (.jarr xs, rest₁)
          | none => none
      else if c = '\"' then
        match parseJString (fuel + 1) rest with
        | some (s, rest₁) => some (.jstr (String.mk s), rest₁)
        | none => none
      else if c = 't' then
        match rest with
        | 'r' :: 'u' :: 'e' :: rest₁ => some (.jbool true, rest₁)
        | _ => none
      else if c = 'f' then
        match rest with
        | 'a' :: 'l' :: 's' :: 'e' :: rest₁ => some (.jbool false, rest₁)
        | _ => none
      else if c = 'n' then
        match rest with
        | 'u' :: 'l' :: 'l' :: rest₁ => some (.jnull, rest₁)
        | _ => none
      else if c = '-' ∨ c.isDigit then
        match parseNum (c :: rest) with
        | some (n, rest₁) => some (.jnum n, rest₁)
        | none => none
      else none

/-- parseMembers reads the members of a non-empty JSON object after the
opening brace. -/
def parseMembers : Nat → List Char → Option (List (String × JVal) × List Char)
  | 0, _ => none
  | fuel + 1, cs =>
    match skipWs cs with
    | '\"' :: rest =>
      match parseJString (fuel + 1) rest with
      | none => none
      | some (k, rest₁) =>
        match skipWs rest₁ with
        | ':' :: rest₂ =>
          match parseVal fuel rest₂ with
          | none => none
          | some (v, rest₃) =>
            match skipWs rest₃ with
            | ',' :: rest₄ =>
              match parseMembers fuel rest₄ with
              | none => none
              | some (fs, rest₅) => some ((String.mk k, v) :: fs, rest₅)
            | '\x7d' :: rest₄ => some ([(String.mk k, v)], rest₄)
            | _ => none
        | _ => none
    | _ => none

/-- parseElems reads the elements of a non-empty JSON array after the
opening bracket. -/
def parseElems : Nat → List Char → Option (List JVal × List Char)
  | 0, _ => none
  | fuel + 1, cs =>
    match parseVal fuel cs with
    | none => none
    | some (v, rest) =>
      match skipWs rest with
      | ',' :: rest₁ =>
        match parseElems fuel rest₁ with
        | none => none
        | some (xs, rest₂) => some (v :: xs, rest₂)
      | ']' :: rest₁ => some ([v], rest₁)
      | _ => none

end

/-- parseJson models json.Unmarshal of a whole input: one value
surrounded by optional whitespace. -/
def parseJson (s : String) : Option JVal :=
  match parseVal (s.data.length + 2) s.data with
  | some (v, rest) => if (skipWs rest).isEmpty then some v else none
  | none => none

/-- parseJsonObj models json.Unmarshal into a Go map of type
map-string-to-any: it succeeds exactly when the input is a JSON object
(any other value fails the unmarshal with a type error). -/
def parseJsonObj (s : String) : Option (List (String × JVal)) :=
  match parseJson s with
  | some (.jobj fs) => some fs
  | _ => none

/-- objGet models indexing the unmarshalled Go map: with duplicate keys
encoding/json keeps the last occurrence, hence the reverse lookup. -/
def objGet (m : List (String × JVal)) (k : String) : Option JVal :=
  m.reverse.lookup k

end json

namespace client

open GoPoe.json

/-- BotErr mirrors the error types of errors.go: retryable is a plain
BotError value and noRetry a BotErrorNoRetry value (which embeds
BotError), each carrying its Message. The Cause field of BotError is
only ever set on transport failures, which sit outside this pure model
of the event dispatch, and it never influences retry classification. -/
inductive BotErr where
  | retryable (msg : String)
  | noRetry (msg : String)
deriving DecidableEq, Repr

/-- IsBotErrorNoRetry mirrors the function of the same name in
errors.go: a type assertion to BotErrorNoRetry, so it is true exactly
on the noRetry shape — behaviour also pinned by TestBotErrorNoRetry in
client_test.go. -/
def IsBotErrorNoRetry : BotErr → Bool
  | .retryable _ => false
  | .noRetry _ => true

/-- Attachment mirrors types.Attachment as filled by the file branch. -/
structure Attachment where
  url : String
  contentType : String
  name : String
  inlineRef : Option String
deriving DecidableEq, Repr

/-- MetaResponse mirrors types.MetaResponse (the embedded
PartialResponse carries only an empty text and is left implicit). -/
structure MetaResponse where
  linkify : Bool
  suggestedReplies : Bool
  contentType : String
deriving DecidableEq, Repr

/-- FunctionCallDefinitionDelta mirrors types.FunctionCallDefinitionDelta. -/
structure FunctionCallDefinitionDelta where
  name : Option String
  arguments : String
deriving DecidableEq, Repr

/-- ToolCallDefinitionDelta mirrors types.ToolCallDefinitionDelta. -/
structure ToolCallDefinitionDelta where
  index : Int
  id : Option String
  type : Option String
  function : FunctionCallDefinitionDelta
deriving DecidableEq, Repr

/-- FunctionCallDefinition mirrors types.FunctionCallDefinition. -/
structure FunctionCallDefinition where
  name : String
  arguments : String
deriving DecidableEq, Repr

/-- ToolCallDefinition mirrors types.ToolCallDefinition. -/
structure ToolCallDefinition where
  id : String
  type : String
  function : FunctionCallDefinition
deriving DecidableEq, Repr

/-- PartialResponse mirrors types.PartialResponse restricted to the
fields the orchestrator writes and GetFinalResponse reads. The Go
RawResponse field has type any but is only ever set to a MetaResponse
pointer by performQueryRequest, so it is typed as Option MetaResponse
here. -/
structure PartialResponse where
  text : String
  data : Option (List (String × JVal))
  rawResponse : Option MetaResponse
  isSuggestedReply : Bool
  isReplaceResponse : Bool
  attachment : Option Attachment
  toolCalls : List ToolCallDefinitionDelta
  index : Option Int
deriving Repr

/-- getJSONStringField mirrors the helper of the same name in
client/request.go: unmarshal the data, then require a string in the
given field. -/
def getJSONStringField (data field : String) : Except BotErr String :=
  match parseJsonObj data with
  | none => .error (.noRetry ("Invalid JSON in event: " ++ data))
  | some m =>
    match objGet m field with
    | some (.jstr t) => .ok t
    | _ => .error (.noRetry ("Expected string in \x27" ++ field ++ "\x27 field"))

/-- extractIndex mirrors the index probe performQueryRequest runs on
every record before dispatch: a non-empty data payload that
unmarshals to an object with a numeric index field yields that index. -/
def extractIndex (d : String) : Option Int :=
  if d = "" then none
  else
    match parseJsonObj d with
    | none => none
    | some m =>
      match objGet m "index" with
      | some (.jnum n) => some n
      | _ => none

/-- runEvents mirrors the event loop of performQueryRequest over the
records the SSE reader yields for one attempt. The accumulator
arguments are the loop variables eventCount, chunks and errorReported;
hasTools reflects whether the payload carried tool definitions.
It returns the responses pushed to the channel, in order, together
with the error value of the function (none on a done record or on end
of input). The log statements of the Go code have no observable
effect and are dropped. -/
def runEvents (hasTools : Bool) :
    List sse.Event → Nat → List String → Bool → List PartialResponse × Option BotErr
  | [], _, _, _ => ([], none)
  | e :: rest, eventCount, chunks, errorReported =>
    let eventCount := eventCount + 1
    let index := extractIndex e.data
    if e.event = "done" then
      ([], none)
    else if e.event = "text" then
      match getJSONStringField e.data "text" with
      | .error err => ([], some err)
      | .ok t =>
        let out := runEvents hasTools rest eventCount (chunks ++ [t]) errorReported
        (⟨t, none, none, false, false, none, [], index⟩ :: out.1, out.2)
    else if e.event = "replace_response" then
      match getJSONStringField e.data "text" with
      | .error err => ([], some err)
      | .ok t =>
        let out := runEvents hasTools rest eventCount [] errorReported
        (⟨t, none, none, false, true, none, [], index⟩ :: out.1, out.2)
    else if e.event = "file" then
      match parseJsonObj e.data with
      | none => ([], some (.noRetry "Invalid JSON in file event"))
      | some m =>
        let fileURL := match objGet m "url" with | some (.jstr s) => s | _ => ""
        let contentType := match objGet m "content_type" with | some (.jstr s) => s | _ => ""
        let name := match objGet m "name" with | some (.jstr s) => s | _ => ""
        let inlineRef := match objGet m "inline_ref" with | some (.jstr s) => some s | _ => none
        let out := runEvents hasTools rest eventCount chunks errorReported
        (⟨"", none, none, false, false, some ⟨fileURL, contentType, name, inlineRef⟩, [], index⟩ :: out.1,
         out.2)
    else if e.event = "suggested_reply" then
      match getJSONStringField e.data "text" with
      | .error err => ([], some err)
      | .ok t =>
        let out := runEvents hasTools rest eventCount chunks errorReported
        (⟨t, none, none, true, false, none, [], index⟩ :: out.1, out.2)
    else if e.event = "json" then
      match parseJsonObj e.data with
      | none => ([], some (.noRetry "Invalid JSON in json event"))
      | some m =>
        let out := runEvents hasTools rest eventCount chunks errorReported
        (⟨"", some m, none, false, false, none, [], index⟩ :: out.1, out.2)
    else if e.event = "meta" then
      if eventCount ≠ 1 then
        runEvents hasTools rest eventCount chunks errorReported
      else
        match parseJsonObj e.data with
        | none => runEvents hasTools rest eventCount chunks true
        | some m =>
          let linkify := match objGet m "linkify" with | some (.jbool b) => b | _ => false
          let suggestedReplies :=
            match objGet m "suggested_replies" with | some (.jbool b) => b | _ => false
          let contentType :=
            match objGet m "content_type" with | some (.jstr s) => s | _ => "text/markdown"
          let out := runEvents hasTools rest eventCount chunks errorReported
          (⟨"", none, some ⟨linkify, suggestedReplies, contentType⟩, false, false, none, [], index⟩ ::
             out.1,
           out.2)
    else if e.event = "error" then
      match parseJsonObj e.data with
      | none => ([], some (.retryable e.data))
      | some m =>
        let allowRetry := match objGet m "allow_retry" with | some (.jbool b) => b | _ => true
        if allowRetry then ([], some (.retryable e.data))
        else ([], some (.noRetry e.data))
    else if e.event = "ping" then
      runEvents hasTools rest eventCount chunks errorReported
    else
      runEvents hasTools rest eventCount chunks true

/-- performQueryRequest models one attempt of the Go function of the
same name: the HTTP transport is abstracted into the list of SSE
records the response body decodes to, and hasTools reflects the
payload probe on the tools key. -/
def performQueryRequest (hasTools : Bool) (events : List sse.Event) :
    List PartialResponse × Option BotErr :=
  runEvents hasTools events 0 [] false

/-- streamAttempts mirrors the retry loop of streamRequestBase: run is
the attempt body, i the attempt counter, and the second argument the
number of loop iterations left. It returns everything pushed to the
channel across attempts and the number of attempts performed; the loop
stops on success, on a BotErrorNoRetry, or when the budget is spent. -/
def streamAttempts (run : Nat → List PartialResponse × Option BotErr) :
    Nat → Nat → List PartialResponse × Nat
  | _, 0 => ([], 0)
  | i, r + 1 =>
    let out := run i
    match out.2 with
    | none => (out.1, 1)
    | some err =>
      if IsBotErrorNoRetry err then (out.1, 1)
      else if r = 0 then (out.1, 1)
      else
        let next := streamAttempts run (i + 1) r
        (out.1 ++ next.1, next.2 + 1)

/-- streamRequestBase models the Go function of the same name without
tools: numTries attempts are budgeted, attempt i consuming the record
stream streams i; the result is the full channel output and the
number of attempts made. -/
def streamRequestBase (streams : Nat → List sse.Event) (numTries : Nat) :
    List PartialResponse × Nat :=
  streamAttempts (fun i => performQueryRequest false (streams i)) 0 numTries

/-- getFinalChunks mirrors the channel loop of GetFinalResponse: meta
responses and suggested replies are skipped, a replace response resets
the accumulated chunks, and every surviving message appends its text. -/
def getFinalChunks : List PartialResponse → List String → List String
  | [], chunks => chunks
  | msg :: rest, chunks =>
    if msg.rawResponse.isSome then getFinalChunks rest chunks
    else if msg.isSuggestedReply then getFinalChunks rest chunks
    else getFinalChunks rest ((if msg.isReplaceResponse then [] else chunks) ++ [msg.text])

/-- getFinalResponse mirrors the tail of GetFinalResponse: an error when
no chunk was accumulated, otherwise the chunks joined with the empty
separator. -/
def getFinalResponse (botName : String) (msgs : List PartialResponse) : Except BotErr String :=
  let chunks := getFinalChunks msgs []
  if chunks.isEmpty then .error (.retryable ("Bot " ++ botName ++ " sent no response"))
  else .ok (String.join chunks)

/-- stepAgg mirrors one iteration of the pass-1 aggregation loop of
streamRequestWithTools: an index not yet present is initialised only
when the delta carries id, type and function name (otherwise the delta
is skipped); an index already present has the argument fragment
appended. -/
def stepAgg (m : Int → Option ToolCallDefinition) (d : ToolCallDefinitionDelta) :
    Int → Option ToolCallDefinition :=
  match m d.index with
  | none =>
    match d.id, d.type, d.function.name with
    | some i, some t, some n =>
      fun k => if k = d.index then some ⟨i, t, ⟨n, d.function.arguments⟩⟩ else m k
    | _, _, _ => m
  | some tc =>
    fun k =>
      if k = d.index then
        some ⟨tc.id, tc.type, ⟨tc.function.name, tc.function.arguments ++ d.function.arguments⟩⟩
      else m k

/-- aggregateDeltas folds the pass-1 aggregation loop over a delta
sequence, starting from the empty aggregatedToolCalls map. -/
def aggregateDeltas (ds : List ToolCallDefinitionDelta) : Int → Option ToolCallDefinition :=
  ds.foldl stepAgg (fun _ => none)

end client

/-! Decoder lemmas: line splitting, single-field lines, and the record
loop, in the service of the codec claims. -/

namespace sse

theorem string_data_append (s t : String) : (s ++ t).data = s.data ++ t.data := rfl

theorem dropCR_eq_self {l : List Char} (h : '\r' ∉ l) : dropCR l = l := by
  unfold dropCR
  by_cases hl : l.getLast? = some '\r'
  · exfalso
    have hmem : '\r' ∈ l.getLast? := by simp [hl]
    obtain ⟨hne, heq⟩ := List.mem_getLast?_eq_getLast hmem
    exact h (heq ▸ List.getLast_mem hne)
  · simp [hl]

theorem splitLinesAux_line {l : List Char} (rest acc : List Char) (h : '\n' ∉ l) :
    splitLinesAux (l ++ '\n' :: rest) acc = dropCR (acc.reverse ++ l) :: splitLinesAux rest [] := by
  induction l generalizing acc with
  | nil => simp [splitLinesAux]
  | cons c l ih =>
    have hc : c ≠ '\n' := fun hcn => h (hcn ▸ List.mem_cons_self c l)
    have hl : '\n' ∉ l := fun hm => h (List.mem_cons_of_mem c hm)
    simp only [List.cons_append, splitLinesAux, if_neg hc, List.append_eq]
    rw [ih (c :: acc) hl]
    simp [List.append_assoc]

theorem splitLines_line {l : List Char} (rest : List Char) (h : '\n' ∉ l) :
    splitLines (l ++ '\n' :: rest) = dropCR l :: splitLines rest := by
  unfold splitLines
  rw [splitLinesAux_line rest [] h]
  simp

theorem splitLines_field (pre l rest : List Char) (hpn : '\n' ∉ pre) (hpr : '\r' ∉ pre)
    (hln : '\n' ∉ l) (hlr : '\r' ∉ l) :
    splitLines ((pre ++ l) ++ '\n' :: rest) = (pre ++ l) :: splitLines rest := by
  have hn : '\n' ∉ pre ++ l := by
    intro hm
    rcases List.mem_append.mp hm with hm | hm
    · exact hpn hm
    · exact hln hm
  have hr : '\r' ∉ pre ++ l := by
    intro hm
    rcases List.mem_append.mp hm with hm | hm
    · exact hpr hm
    · exact hlr hm
  rw [splitLines_line rest hn, dropCR_eq_self hr]

theorem procLine_id (evl idl : List Char) (dl : List (List Char)) (hd : Bool) (l : List Char) :
    procLine ⟨evl, idl, dl, hd⟩ ("id: ".data ++ l) = (⟨evl, l, dl, hd⟩, none) := rfl

theorem procLine_event (evl idl : List Char) (dl : List (List Char)) (hd : Bool) (l : List Char) :
    procLine ⟨evl, idl, dl, hd⟩ ("event: ".data ++ l) = (⟨l, idl, dl, hd⟩, none) := rfl

theorem procLine_data (evl idl : List Char) (dl : List (List Char)) (hd : Bool) (l : List Char) :
    procLine ⟨evl, idl, dl, hd⟩ ("data: ".data ++ l) = (⟨evl, idl, dl ++ [l], true⟩, none) := rfl

theorem readEvents_cons_none {st st' : RState} {line : List Char}
    (h : procLine st line = (st', none)) (rest : List (List Char)) :
    readEvents (line :: rest) st = readEvents rest st' := by
  simp [readEvents, h]

theorem readEvents_blank_flush (evl idl : List Char) (dl : List (List Char))
    (rest : List (List Char)) :
    readEvents ([] :: rest) ⟨evl, idl, dl, true⟩ =
      flushEvent ⟨evl, idl, dl, true⟩ :: readEvents rest initState := by
  simp [readEvents, procLine, pending]

theorem readEvents_nil_initState : readEvents [] initState = [] := rfl

theorem pending_initState : pending initState = false := rfl

theorem readEvents_dataLines (vs : List (List Char)) (evl idl : List Char)
    (dl : List (List Char)) :
    readEvents ((vs.map (fun v => "data: ".data ++ v)) ++ [[]]) ⟨evl, idl, dl, true⟩ =
      [flushEvent ⟨evl, idl, dl ++ vs, true⟩] := by
  induction vs generalizing dl with
  | nil =>
    rw [List.map_nil, List.nil_append, readEvents_blank_flush evl idl dl []]
    simp [readEvents, pending_initState]
  | cons v vs ih =>
    rw [List.map_cons, List.cons_append, readEvents_cons_none (procLine_data evl idl dl true v)]
    rw [ih (dl ++ [v])]
    simp [List.append_assoc]

theorem readEvents_append_blank (L : List (List Char)) :
    ∀ st : RState, readEvents (L ++ [[]]) st = readEvents L st := by
  induction L with
  | nil =>
    intro st
    cases hp : pending st with
    | false => simp [readEvents, procLine, hp]
    | true => simp [readEvents, procLine, hp, pending_initState]
  | cons l L ih =>
    intro st
    rcases hp : procLine st l with ⟨st', oe⟩
    cases oe with
    | none => simp [readEvents, hp, ih]
    | some e => simp [readEvents, hp, ih]

/-- lineSafe: the field contains no newline and no carriage return, so
that the writer represents it on a single wire line that the scanner
recovers unchanged. -/
def lineSafe (s : String) : Prop := '\n' ∉ s.data ∧ '\r' ∉ s.data

instance (s : String) : Decidable (lineSafe s) := by
  unfold lineSafe
  infer_instance

end sse

/-! Claim theorems for the codec. -/

open sse in
/-- C3 counterexample: the round trip is not the identity for every
id, type and data combination. For the record with empty id, empty
type and the two-line data payload, WriteEvent emits the payload on a
single data line, the scanner splits it at the embedded newline, the
second half parses as an unknown field name, and the decoded record
keeps only the first half of the data. -/
theorem writeEvent_roundtrip_counterexample :
    decode (writeEvent ⟨"", "a\nb", ""⟩) = [⟨"", "a", ""⟩] ∧
    decode (writeEvent ⟨"", "a\nb", ""⟩) ≠ [⟨"", "a\nb", ""⟩] := by
  constructor
  · rfl
  · decide

open sse in
/-- C3 (amended): for every event record whose id, type and data
contain no newline and no carriage return — in particular for empty
data — encoding with WriteEvent and decoding with ReadEvent yields
exactly one record equal to the original. -/
theorem writeEvent_roundtrip (e : sse.Event) (hid : lineSafe e.id) (hev : lineSafe e.event)
    (hdt : lineSafe e.data) : decode (writeEvent e) = [e] := by
  obtain ⟨ev, dt, id⟩ := e
  obtain ⟨hidn, hidr⟩ := hid
  obtain ⟨hevn, hevr⟩ := hev
  obtain ⟨hdtn, hdtr⟩ := hdt
  have hn : ("\n" : String).data = ['\n'] := rfl
  have hnn : ("\n\n" : String).data = ['\n', '\n'] := rfl
  show readEvents (splitLines (writeEvent ⟨ev, dt, id⟩).data) initState = [⟨ev, dt, id⟩]
  rw [show initState = (⟨[], [], [], false⟩ : RState) from rfl]
  by_cases hidE : id = "" <;> by_cases hevE : ev = ""
  · subst hidE hevE
    have h1 : (writeEvent ⟨"", dt, ""⟩).data =
        ("data: ".data ++ dt.data) ++ '\n' :: '\n' :: [] := by
      simp [writeEvent, string_data_append, hnn, List.append_assoc]
    rw [h1, splitLines_field _ _ _ (by decide) (by decide) hdtn hdtr,
      show splitLines ['\n'] = [[]] from rfl,
      readEvents_cons_none (procLine_data [] [] [] false dt.data),
      readEvents_blank_flush [] [] ([] ++ [dt.data]) [], readEvents_nil_initState]
    simp [flushEvent, joinNL]
  · subst hidE
    have h1 : (writeEvent ⟨ev, dt, ""⟩).data =
        ("event: ".data ++ ev.data) ++ '\n' :: (("data: ".data ++ dt.data) ++ '\n' :: '\n' :: []) := by
      simp [writeEvent, if_pos (show ev ≠ "" from hevE), string_data_append, hn, hnn,
        List.append_assoc]
    rw [h1, splitLines_field _ _ _ (by decide) (by decide) hevn hevr,
      splitLines_field _ _ _ (by decide) (by decide) hdtn hdtr,
      show splitLines ['\n'] = [[]] from rfl,
      readEvents_cons_none (procLine_event [] [] [] false ev.data),
      readEvents_cons_none (procLine_data ev.data [] [] false dt.data),
      readEvents_blank_flush ev.data [] ([] ++ [dt.data]) [], readEvents_nil_initState]
    simp [flushEvent, joinNL]
  · subst hevE
    have h1 : (writeEvent ⟨"", dt, id⟩).data =
        ("id: ".data ++ id.data) ++ '\n' :: (("data: ".data ++ dt.data) ++ '\n' :: '\n' :: []) := by
      simp [writeEvent, if_pos (show id ≠ "" from hidE), string_data_append, hn, hnn,
        List.append_assoc]
    rw [h1, splitLines_field _ _ _ (by decide) (by decide) hidn hidr,
      splitLines_field _ _ _ (by decide) (by decide) hdtn hdtr,
      show splitLines ['\n'] = [[]] from rfl,
      readEvents_cons_none (procLine_id [] [] [] false id.data),
      readEvents_cons_none (procLine_data [] id.data [] false dt.data),
      readEvents_blank_flush [] id.data ([] ++ [dt.data]) [], readEvents_nil_initState]
    simp [flushEvent, joinNL]
  · have h1 : (writeEvent ⟨ev, dt, id⟩).data =
        ("id: ".data ++ id.data) ++ '\n' ::
          (("event: ".data ++ ev.data) ++ '\n' ::
            (("data: ".data ++ dt.data) ++ '\n' :: '\n' :: [])) := by
      simp [writeEvent, if_pos (show id ≠ "" from hidE), if_pos (show ev ≠ "" from hevE),
        string_data_append, hn, hnn, List.append_assoc]
    rw [h1, splitLines_field _ _ _ (by decide) (by decide) hidn hidr,
      splitLines_field _ _ _ (by decide) (by decide) hevn hevr,
      splitLines_field _ _ _ (by decide) (by decide) hdtn hdtr,
      show splitLines ['\n'] = [[]] from rfl,
      readEvents_cons_none (procLine_id [] [] [] false id.data),
      readEvents_cons_none (procLine_event [] id.data [] false ev.data),
      readEvents_cons_none (procLine_data ev.data id.data [] false dt.data),
      readEvents_blank_flush ev.data id.data ([] ++ [dt.data]) [], readEvents_nil_initState]
    simp [flushEvent, joinNL]

/-- C3 witness: the amended round trip at a concrete record with all
three fields set. -/
theorem writeEvent_roundtrip_witness :
    sse.decode (sse.writeEvent ⟨"message", "Hello", "123"⟩) = [⟨"message", "Hello", "123"⟩] :=
  writeEvent_roundtrip ⟨"message", "Hello", "123"⟩ (by decide) (by decide) (by decide)

open sse in
/-- C7: a record decoded from any non-empty sequence of data field
lines carries the line values joined by a newline, in arrival order;
and the concrete input consisting of an event line, one data line and
a blank line decodes to exactly one record with that type and data. -/
theorem dataLines_joined :
    (∀ vs : List (List Char), vs ≠ [] →
      readEvents ((vs.map (fun v => "data: ".data ++ v)) ++ [[]]) initState =
        [⟨"", String.mk (joinNL vs), ""⟩]) ∧
    decode "event: message\ndata: Hello, world!\n\n" = [⟨"message", "Hello, world!", ""⟩] := by
  constructor
  · intro vs hvs
    match vs with
    | v :: vs =>
      rw [show initState = (⟨[], [], [], false⟩ : RState) from rfl, List.map_cons,
        List.cons_append, readEvents_cons_none (procLine_data [] [] [] false v),
        readEvents_dataLines vs [] [] ([] ++ [v])]
      simp [flushEvent]
  · rfl

/-- C7 witness: the data-line join at the concrete one-element list of
values from the specification scenario. -/
theorem dataLines_joined_witness :
    sse.readEvents ((["Hello, world!".data].map (fun v => "data: ".data ++ v)) ++ [[]])
      sse.initState = [⟨"", String.mk (sse.joinNL ["Hello, world!".data]), ""⟩] :=
  dataLines_joined.1 ["Hello, world!".data] (by decide)

open sse in
/-- C9: appending a trailing blank line to the line stream never
changes the decode result, so a final record lacking the blank-line
terminator is still yielded at end of input; concretely, the input
without a trailing blank line decodes like the same input with one
appended, to a final record. -/
theorem final_record_without_blank :
    (∀ L : List (List Char), readEvents (L ++ [[]]) initState = readEvents L initState) ∧
    decode "event: last\ndata: No trailing newline" =
      decode "event: last\ndata: No trailing newline\n\n" ∧
    decode "event: last\ndata: No trailing newline" = [⟨"last", "No trailing newline", ""⟩] := by
  refine ⟨fun L => readEvents_append_blank L _, rfl, rfl⟩

/-! Orchestrator lemmas: the error branches of the event dispatch and
the retry loop. -/

namespace client

theorem runEvents_error_invalid (hasTools : Bool) (d ident : String) (rest : List sse.Event)
    (count : Nat) (chunks : List String) (errRep : Bool) (hj : json.parseJsonObj d = none) :
    runEvents hasTools (⟨"error", d, ident⟩ :: rest) count chunks errRep =
      ([], some (BotErr.retryable d)) := by
  simp [runEvents, hj]

theorem runEvents_error_noRetry (hasTools : Bool) (d ident : String) (rest : List sse.Event)
    (count : Nat) (chunks : List String) (errRep : Bool) (m : List (String × json.JVal))
    (hj : json.parseJsonObj d = some m)
    (hb : json.objGet m "allow_retry" = some (json.JVal.jbool false)) :
    runEvents hasTools (⟨"error", d, ident⟩ :: rest) count chunks errRep =
      ([], some (BotErr.noRetry d)) := by
  simp [runEvents, hj, hb]

theorem streamAttempts_succ (run : Nat → List PartialResponse × Option BotErr) (i r : Nat) :
    streamAttempts run i (r + 1) =
      (match (run i).2 with
       | none => ((run i).1, 1)
       | some err =>
         if IsBotErrorNoRetry err then ((run i).1, 1)
         else if r = 0 then ((run i).1, 1)
         else (((run i).1) ++ (streamAttempts run (i + 1) r).1,
               (streamAttempts run (i + 1) r).2 + 1)) := rfl

theorem streamAttempts_all_retry (run : Nat → List PartialResponse × Option BotErr) (msg : String)
    (h : ∀ i, run i = ([], some (BotErr.retryable msg))) :
    ∀ (r i : Nat), 1 ≤ r → streamAttempts run i r = ([], r) := by
  intro r
  induction r with
  | zero => intro i hr; omega
  | succ r ih =>
    intro i _
    rw [streamAttempts_succ, h i]
    cases hr0 : r with
    | zero => simp [IsBotErrorNoRetry]
    | succ r' =>
      have h2 := ih (i + 1) (by omega)
      rw [hr0] at h2
      simp [IsBotErrorNoRetry, h2]

end client

open client json in
/-- C1 counterexample: an error record whose data is not valid JSON
makes performQueryRequest fail with a plain BotError (retryable), and
with a configured attempt count of 2 the orchestrator performs both
attempts — contradicting the claim that the failure is non-retryable
and that no further attempts are made. -/
theorem malformed_error_counterexample :
    performQueryRequest false [⟨"error", "oops", ""⟩] =
      ([], some (BotErr.retryable "oops")) ∧
    streamRequestBase (fun _ => [⟨"error", "oops", ""⟩]) 2 = ([], 2) := by
  constructor <;> rfl

open client json in
/-- C1 (amended): for every stream in which an error event record
carries data that is not valid JSON, performQueryRequest fails the
attempt with a retryable failure whose message is the raw record
payload, so the orchestrator keeps retrying: with every attempt
hitting such a record, all configured attempts are performed and no
message is emitted. -/
theorem malformed_error_retryable :
    (∀ (hasTools : Bool) (d ident : String) (rest : List sse.Event) (count : Nat)
        (chunks : List String) (errRep : Bool), parseJsonObj d = none →
        runEvents hasTools (⟨"error", d, ident⟩ :: rest) count chunks errRep =
          ([], some (BotErr.retryable d))) ∧
    (∀ (d ident : String) (rest : List sse.Event) (n : Nat), parseJsonObj d = none → 1 ≤ n →
        streamRequestBase (fun _ => ⟨"error", d, ident⟩ :: rest) n = ([], n)) := by
  constructor
  · intro hasTools d ident rest count chunks errRep hj
    exact runEvents_error_invalid hasTools d ident rest count chunks errRep hj
  · intro d ident rest n hj hn
    exact streamAttempts_all_retry _ d
      (fun i => runEvents_error_invalid false d ident rest 0 [] false hj) n 0 hn

/-- C1 witness: the amended behaviour at a concrete malformed error
record and attempt count 3. -/
theorem malformed_error_retryable_witness :
    client.streamRequestBase (fun _ => [⟨"error", "oops", ""⟩]) 3 = ([], 3) :=
  malformed_error_retryable.2 "oops" "" [] 3 rfl (by decide)

open client json in
/-- C4: when the first record of the first attempt is an error record
whose payload parses with allow-retry false, the orchestrator emits no
message, performs exactly one attempt regardless of the configured
attempt count, and ends the output normally. -/
theorem nonretryable_error_stops (streams : Nat → List sse.Event) (d ident : String)
    (rest : List sse.Event) (m : List (String × JVal)) (n : Nat)
    (h0 : streams 0 = ⟨"error", d, ident⟩ :: rest) (hj : parseJsonObj d = some m)
    (hb : objGet m "allow_retry" = some (JVal.jbool false)) (hn : 1 ≤ n) :
    streamRequestBase streams n = ([], 1) := by
  cases n with
  | zero => omega
  | succ r =>
    have hrun : performQueryRequest false (streams 0) = ([], some (BotErr.noRetry d)) := by
      rw [h0]
      exact runEvents_error_noRetry false d ident rest 0 [] false m hj hb
    simp [streamRequestBase, streamAttempts, hrun, IsBotErrorNoRetry]

/-- C4 witness: the non-retryable stop at a concrete error record with
allow-retry false and attempt count 2. -/
theorem nonretryable_error_stops_witness :
    client.streamRequestBase
      (fun _ => [⟨"error", "\x7b\"allow_retry\": false, \"text\": \"Bad request\"\x7d", ""⟩]) 2 =
      ([], 1) :=
  nonretryable_error_stops _ "\x7b\"allow_retry\": false, \"text\": \"Bad request\"\x7d" "" []
    [("allow_retry", json.JVal.jbool false), ("text", json.JVal.jstr "Bad request")] 2
    rfl rfl rfl (by decide)

open client json in
/-- C6: a meta record that is not the first record of the stream is
silently discarded — the dispatch emits nothing for it, raises no
error, and continues with the remaining records and unchanged loop
state; concretely, a text record followed by a meta record produces
exactly the one text message. -/
theorem meta_only_first :
    (∀ (hasTools : Bool) (d ident : String) (rest : List sse.Event) (count : Nat)
        (chunks : List String) (errRep : Bool), 1 ≤ count →
        runEvents hasTools (⟨"meta", d, ident⟩ :: rest) count chunks errRep =
          runEvents hasTools rest (count + 1) chunks errRep) ∧
    performQueryRequest false
      [⟨"text", "\x7b\"text\": \"a\"\x7d", ""⟩, ⟨"meta", "\x7b\"linkify\": true\x7d", ""⟩] =
      ([⟨"a", none, none, false, false, none, [], none⟩], none) := by
  constructor
  · intro hasTools d ident rest count chunks errRep hc
    have h1 : ¬(count + 1 = 1) := by omega
    simp [runEvents, h1]
  · rfl

/-- C6 witness: the discard of a second-position meta record at
concrete loop state. -/
theorem meta_only_first_witness :
    client.runEvents false [⟨"meta", "\x7b\x7d", ""⟩] 1 [] false =
      client.runEvents false [] 2 [] false :=
  meta_only_first.1 false "\x7b\x7d" "" [] 1 [] false (by decide)

/-! Transcript lemmas for GetFinalResponse. -/

namespace client

theorem getFinalChunks_ne_nil (msgs : List PartialResponse) :
    ∀ acc : List String, acc ≠ [] → getFinalChunks msgs acc ≠ [] := by
  induction msgs with
  | nil => intro acc h; simpa [getFinalChunks] using h
  | cons m msgs ih =>
    intro acc h
    by_cases h1 : m.rawResponse.isSome = true
    · simpa [getFinalChunks, h1] using ih acc h
    · by_cases h2 : m.isSuggestedReply = true
      · simpa [getFinalChunks, h1, h2] using ih acc h
      · simpa [getFinalChunks, h1, h2] using
          ih ((if m.isReplaceResponse then [] else acc) ++ [m.text]) (by simp)

theorem getFinalChunks_eq_nil_iff (msgs : List PartialResponse) :
    ∀ acc : List String, getFinalChunks msgs acc = [] ↔
      acc = [] ∧ ∀ m ∈ msgs, m.rawResponse.isSome = true ∨ m.isSuggestedReply = true := by
  induction msgs with
  | nil => intro acc; simp [getFinalChunks]
  | cons m msgs ih =>
    intro acc
    by_cases h1 : m.rawResponse.isSome = true
    · simp [getFinalChunks, h1, ih, List.forall_mem_cons]
    · by_cases h2 : m.isSuggestedReply = true
      · simp [getFinalChunks, h1, h2, ih, List.forall_mem_cons]
      · have hne : getFinalChunks msgs ((if m.isReplaceResponse then [] else acc) ++ [m.text]) ≠
            [] := getFinalChunks_ne_nil msgs _ (by simp)
        simp only [getFinalChunks, h1, h2, if_false, List.forall_mem_cons]
        constructor
        · intro hc; exact absurd hc hne
        · rintro ⟨-, h3 | h3, -⟩ <;> simp at h3

end client

open client in
/-- C5: a replace message resets the accumulated transcript — whatever
was accumulated before it, the chunks after the replace are exactly
the replace text followed by the contribution of the remaining
messages; concretely, the sequence of a text message Old and a replace
message New yields the final response New, not OldNew. -/
theorem replace_resets_transcript :
    (∀ (rep : PartialResponse), rep.rawResponse = none → rep.isSuggestedReply = false →
      rep.isReplaceResponse = true →
      ∀ (pre post : List PartialResponse) (c : List String),
        getFinalChunks (pre ++ rep :: post) c = getFinalChunks post [rep.text]) ∧
    getFinalResponse "bot"
      [⟨"Old", none, none, false, false, none, [], none⟩,
       ⟨"New", none, none, false, true, none, [], none⟩] = Except.ok "New" := by
  constructor
  · intro rep hm hs hr pre
    induction pre with
    | nil =>
      intro post c
      simp [getFinalChunks, hm, hs, hr]
    | cons m pre ih =>
      intro post c
      by_cases h1 : m.rawResponse.isSome = true
      · simp [getFinalChunks, h1, ih]
      · by_cases h2 : m.isSuggestedReply = true
        · simp [getFinalChunks, h1, h2, ih]
        · simp [getFinalChunks, h1, h2, ih]
  · rfl

/-- C5 witness: the reset property applied at the concrete Old and New
messages of the specification scenario. -/
theorem replace_resets_transcript_witness :
    client.getFinalChunks
      ([(⟨"Old", none, none, false, false, none, [], none⟩ : client.PartialResponse)] ++
        (⟨"New", none, none, false, true, none, [], none⟩ : client.PartialResponse) :: []) [] =
      client.getFinalChunks [] ["New"] :=
  replace_resets_transcript.1 ⟨"New", none, none, false, true, none, [], none⟩ rfl rfl rfl
    [⟨"Old", none, none, false, false, none, [], none⟩] [] []

open client in
/-- C10: GetFinalResponse returns the no-response error exactly when
every delivered message is a meta response or a suggested reply (in
particular when no message was delivered at all); every other message
contributes its text as a chunk even when the text is empty, so a
stream of one file attachment followed by done yields the empty final
response with no error. -/
theorem noResponse_error_iff :
    (∀ (name : String) (msgs : List PartialResponse),
      getFinalResponse name msgs =
          Except.error (BotErr.retryable ("Bot " ++ name ++ " sent no response")) ↔
        ∀ m ∈ msgs, m.rawResponse.isSome = true ∨ m.isSuggestedReply = true) ∧
    getFinalResponse "b"
      (performQueryRequest false
        [⟨"file", "\x7b\"url\": \"u\", \"content_type\": \"ct\", \"name\": \"f\"\x7d", ""⟩,
         ⟨"done", "\x7b\x7d", ""⟩]).1 = Except.ok "" := by
  constructor
  · intro name msgs
    by_cases h : getFinalChunks msgs [] = []
    · refine iff_of_true ?_ (((getFinalChunks_eq_nil_iff msgs []).mp h).2)
      have h' : (getFinalChunks msgs []).isEmpty = true := by simp [h]
      simp [getFinalResponse, h']
    · refine iff_of_false ?_ ?_
      · have h' : (getFinalChunks msgs []).isEmpty = false := by
          simpa [List.isEmpty_iff] using h
        intro hco
        rw [getFinalResponse] at hco
        simp [h'] at hco
      · intro hall
        exact h ((getFinalChunks_eq_nil_iff msgs []).mpr ⟨rfl, hall⟩)
  · rfl

/-- C10 witness: the empty delivered-message list satisfies the
condition, so GetFinalResponse returns the no-response error. -/
theorem noResponse_error_iff_witness :
    client.getFinalResponse "b" [] =
      Except.error (client.BotErr.retryable ("Bot " ++ "b" ++ " sent no response")) :=
  (noResponse_error_iff.1 "b" []).mpr (by simp)

/-! Aggregation lemmas for the pass-1 tool-call loop. -/

namespace client

theorem string_append_empty (s : String) : s ++ "" = s := by
  cases s with
  | mk l => show String.mk (l ++ []) = String.mk l; rw [List.append_nil]

theorem string_append_assoc (a b c : String) : (a ++ b) ++ c = a ++ (b ++ c) := by
  cases a with
  | mk la =>
    cases b with
    | mk lb =>
      cases c with
      | mk lc => show String.mk ((la ++ lb) ++ lc) = String.mk (la ++ (lb ++ lc))
                 rw [List.append_assoc]

/-- joinArgs: the concatenation of a list of argument fragments, the
value a run of += appends amounts to. -/
def joinArgs : List String → String
  | [] => ""
  | a :: l => a ++ joinArgs l

theorem stepAgg_preserve_ne (m : Int → Option ToolCallDefinition) (d : ToolCallDefinitionDelta)
    (k : Int) (h : k ≠ d.index) : stepAgg m d k = m k := by
  rcases hid : d.id with _ | a <;> rcases hty : d.type with _ | b <;>
    rcases hnm : d.function.name with _ | c <;>
    cases hmi : m d.index <;>
    simp [stepAgg, hid, hty, hnm, hmi, h]

theorem stepAgg_incomplete (m : Int → Option ToolCallDefinition) (d : ToolCallDefinitionDelta)
    (hmi : m d.index = none)
    (h : d.id = none ∨ d.type = none ∨ d.function.name = none) : stepAgg m d = m := by
  rcases hid : d.id with _ | a <;> rcases hty : d.type with _ | b <;>
    rcases hnm : d.function.name with _ | c <;>
    simp [stepAgg, hid, hty, hnm, hmi]
  rw [hid, hty, hnm] at h
  simp at h

theorem stepAgg_append (m : Int → Option ToolCallDefinition) (d : ToolCallDefinitionDelta)
    (tc : ToolCallDefinition) (hmi : m d.index = some tc) :
    stepAgg m d d.index =
      some ⟨tc.id, tc.type, ⟨tc.function.name, tc.function.arguments ++ d.function.arguments⟩⟩ := by
  simp [stepAgg, hmi]

theorem foldl_stepAgg_none (i : Int) :
    ∀ (ds : List ToolCallDefinitionDelta) (m : Int → Option ToolCallDefinition), m i = none →
      (∀ d ∈ ds, d.index = i → d.id = none ∨ d.type = none ∨ d.function.name = none) →
      (ds.foldl stepAgg m) i = none := by
  intro ds
  induction ds with
  | nil => intro m hm _; exact hm
  | cons d ds ih =>
    intro m hm hall
    rw [List.foldl_cons]
    refine ih (stepAgg m d) ?_ (fun d' hd' => hall d' (List.mem_cons_of_mem d hd'))
    by_cases hdi : d.index = i
    · rw [stepAgg_incomplete m d (hdi ▸ hm) (hall d (List.mem_cons_self d ds) hdi)]
      exact hm
    · rw [stepAgg_preserve_ne m d i (fun h => hdi h.symm)]
      exact hm

theorem foldl_stepAgg_some (i : Int) :
    ∀ (ds : List ToolCallDefinitionDelta) (m : Int → Option ToolCallDefinition)
      (tc : ToolCallDefinition), m i = some tc →
      (ds.foldl stepAgg m) i =
        some ⟨tc.id, tc.type, ⟨tc.function.name, tc.function.arguments ++
          joinArgs ((ds.filter (fun d => d.index = i)).map (fun d => d.function.arguments))⟩⟩ := by
  intro ds
  induction ds with
  | nil =>
    intro m tc hm
    rw [List.foldl_nil, hm, List.filter_nil, List.map_nil]
    rw [show joinArgs [] = "" from rfl, string_append_empty]
  | cons d ds ih =>
    intro m tc hm
    rw [List.foldl_cons]
    by_cases hdi : d.index = i
    · have hstep : stepAgg m d i =
          some ⟨tc.id, tc.type, ⟨tc.function.name, tc.function.arguments ++
            d.function.arguments⟩⟩ := by
        rw [← hdi] at hm ⊢
        exact stepAgg_append m d tc hm
      rw [ih (stepAgg m d) _ hstep, List.filter_cons_of_pos (by simpa using hdi), List.map_cons]
      rw [show joinArgs (d.function.arguments ::
            (ds.filter (fun d => d.index = i)).map (fun d => d.function.arguments)) =
          d.function.arguments ++
            joinArgs ((ds.filter (fun d => d.index = i)).map (fun d => d.function.arguments))
        from rfl]
      rw [string_append_assoc]
    · have hstep : stepAgg m d i = some tc := by
        rw [stepAgg_preserve_ne m d i (fun h => hdi h.symm)]
        exact hm
      rw [ih (stepAgg m d) _ hstep, List.filter_cons_of_neg (by simpa using hdi)]

end client

open client in
/-- C2 counterexample: an index whose first delta lacks id, type and
function name is not permanently dropped — a subsequent delta at the
same index that carries all three fields initialises the entry (the
earlier fragment is lost), contradicting the claim that no entry can
ever be created at that index. -/
theorem dropped_index_counterexample :
    aggregateDeltas
      [⟨0, none, none, ⟨none, "frag"⟩⟩,
       ⟨0, some "call1", some "function", ⟨some "get", "args"⟩⟩] 0 =
      some ⟨"call1", "function", ⟨"get", "args"⟩⟩ := rfl

open client in
/-- C2 (amended): the aggregation map is keyed by delta index and never
re-keyed, and an index at which every arriving delta lacks id, type or
function name is never initialised: no entry is created and no
arguments are accumulated there, hence no tool result can be produced
for it. A later delta at that index that carries all of id, type and
function name does initialise the entry from that delta onward. -/
theorem dropped_index_stays_absent (ds : List client.ToolCallDefinitionDelta) (i : Int)
    (hall : ∀ d ∈ ds, d.index = i → d.id = none ∨ d.type = none ∨ d.function.name = none) :
    aggregateDeltas ds i = none :=
  foldl_stepAgg_none i ds (fun _ => none) rfl hall

/-- C2 witness: a sequence in which every delta at index 0 lacks one of
the three metadata fields aggregates to no entry at index 0. -/
theorem dropped_index_stays_absent_witness :
    client.aggregateDeltas
      [⟨0, none, none, ⟨none, "a"⟩⟩, ⟨0, some "x", none, ⟨some "f", "b"⟩⟩] 0 = none :=
  dropped_index_stays_absent
    [⟨0, none, none, ⟨none, "a"⟩⟩, ⟨0, some "x", none, ⟨some "f", "b"⟩⟩] 0 (by decide)

open client in
/-- C8: once an index holds an entry, folding any further deltas
appends, in arrival order, the argument fragment of exactly the deltas
carrying that index (empty fragments included) while id, type and
function name stay unchanged; concretely the three-delta sequence of
the specification aggregates its two fragments to the full JSON
arguments string. -/
theorem toolcall_args_append :
    (∀ (ds : List client.ToolCallDefinitionDelta) (m : Int → Option client.ToolCallDefinition)
        (i : Int) (tc : client.ToolCallDefinition), m i = some tc →
        (ds.foldl stepAgg m) i =
          some ⟨tc.id, tc.type, ⟨tc.function.name, tc.function.arguments ++
            joinArgs ((ds.filter (fun d => d.index = i)).map (fun d => d.function.arguments))⟩⟩) ∧
    aggregateDeltas
      [⟨0, some "call1", some "function", ⟨some "get_weather", ""⟩⟩,
       ⟨0, none, none, ⟨none, "\x7b\"x\":"⟩⟩,
       ⟨0, none, none, ⟨none, "1\x7d"⟩⟩] 0 =
      some ⟨"call1", "function", ⟨"get_weather", "\x7b\"x\":1\x7d"⟩⟩ := by
  refine ⟨fun ds m i tc hm => foldl_stepAgg_some i ds m tc hm, rfl⟩

/-- C8 witness: the append property applied to one delta arriving at an
index that already holds an entry. -/
theorem toolcall_args_append_witness :
    ([(⟨0, none, none, ⟨none, "b"⟩⟩ : client.ToolCallDefinitionDelta)].foldl client.stepAgg
      (fun k => if k = 0 then some ⟨"c", "t", ⟨"f", "a"⟩⟩ else none)) 0 =
      some ⟨"c", "t", ⟨"f", "a" ++ client.joinArgs
        (([(⟨0, none, none, ⟨none, "b"⟩⟩ : client.ToolCallDefinitionDelta)].filter
          (fun d => d.index = 0)).map (fun d => d.function.arguments))⟩⟩ :=
  toolcall_args_append.1 [⟨0, none, none, ⟨none, "b"⟩⟩]
    (fun k => if k = 0 then some ⟨"c", "t", ⟨"f", "a"⟩⟩ else none) 0 ⟨"c", "t", ⟨"f", "a"⟩⟩ rfl

end GoPoe
